import Mathlib

/-!
Verification development for the NLP-Plug-in repository: a shallow embedding
of `custom_stopwords.py`, `text_processor.py`, `document_processors.py` and
`nlp_pipeline.py`, followed by theorems settling the specification claims.

Modelling conventions:

* Python strings are Lean `String`; `str.lower()` is modelled by ASCII case
  folding (`pyLower`), which is what Python does on ASCII input.
* Python sets of strings are `Finset String` (insertion order irrelevant,
  no duplicates), matching Python `set` semantics.
* The persisted JSON file (a single object mapping language name to the
  sorted list of its custom stopwords) is modelled as a total map
  `World : String → Option (List String)`; `none` models an absent key,
  whose read yields the empty list (`data.get(language, [])`).
* The filesystem seen by the processors is `FileSystem : String → Option
  String` mapping a path to its text content (`none` = missing file, the
  `FileNotFoundError` path).
* `re.findall(r'\b\w+\b', text.lower())` extracts the maximal runs of word
  characters of the lowercased text, left to right; it is modelled by a
  greedy `takeWhile`/`dropWhile` scan (`splitRuns`). `\w` is modelled as
  ASCII alphanumeric or underscore.
* Mutating methods become state-passing functions returning the updated
  store and world. Methods accepting a single word or a list (`add`,
  `remove`) are modelled on lists; the Python scalar branch wraps the word
  in a one-element list, so a single-word call is the `[w]` instance.
* `NLPPipeline.process_text` appends the very dict it returns to
  `self.results`, and `process_file` then mutates that dict in place
  (`result["file"] = file_path`).  To keep this aliasing observable, the
  pipeline state carries a small heap: `heap : List ProcResult` with
  addresses as indices, and `results : List Nat` holding heap addresses.
  `process_text` allocates a record and appends its address;
  `process_file` overwrites the record at the returned address.
-/

/-- ASCII case folding of one character: Python `str.lower` restricted to
ASCII (uppercase A-Z maps to a-z, everything else fixed). -/
def pyLower (c : Char) : Char :=
  if c.isUpper then c.toLower else c

/-- Python `s.lower()` on a whole string (ASCII model). -/
def strLower (s : String) : String :=
  String.mk (s.data.map pyLower)

/-- Model of the regex class `\w`: ASCII alphanumeric or underscore. -/
def isWordChar (c : Char) : Bool :=
  c.isAlphanum || c == '_'

/-- Python `str.isspace` for the ASCII whitespace characters recognised by
`str.split()` with no arguments. -/
def pyIsSpace (c : Char) : Bool :=
  c == ' ' || c == '\t' || c == '\n' || c == '\r' || c == '\x0b' || c == '\x0c'

/-- Scanner extracting the runs of characters satisfying `p`, left to
right: `acc` holds the (reversed) current run. This is the operational
content of `re.findall` with a greedy boundary-delimited class pattern,
and of `str.split()`: characters failing `p` end the current run, and a
finished run is emitted in input order. -/
def splitRunsAux (p : Char → Bool) : List Char → List Char → List (List Char)
  | [], acc => if acc.isEmpty then [] else [acc.reverse]
  | c :: cs, acc =>
    if p c then
      splitRunsAux p cs (c :: acc)
    else if acc.isEmpty then
      splitRunsAux p cs []
    else
      acc.reverse :: splitRunsAux p cs []

/-- The runs of characters satisfying `p`, in left-to-right order. -/
def splitRuns (p : Char → Bool) (l : List Char) : List (List Char) :=
  splitRunsAux p l []

/-- Declarative characterization of maximal runs: at each character
satisfying `p`, the whole maximal run (`takeWhile`) is one block, and the
scan resumes after it (`dropWhile`). Used as the specification that
`splitRuns` is proved to satisfy. -/
def maximalRuns (p : Char → Bool) : List Char → List (List Char)
  | [] => []
  | c :: cs =>
    if p c then
      (c :: cs.takeWhile p) :: maximalRuns p (cs.dropWhile p)
    else
      maximalRuns p cs
termination_by l => l.length
decreasing_by
  · exact Nat.lt_succ_of_le (List.dropWhile_sublist p).length_le
  · exact Nat.lt_succ_self _

/-- Tokenization used by `preprocess`:
`re.findall(r'\b\w+\b', text.lower())`, i.e. the maximal runs of word
characters of the lowercased text, in order. -/
def tokenize (text : String) : List String :=
  (splitRuns isWordChar (text.data.map pyLower)).map String.mk

/-- Python `text.split()`: maximal runs of non-whitespace characters. -/
def pySplit (text : String) : List String :=
  (splitRuns (fun c => !pyIsSpace c) text.data).map String.mk

/-- State of a `CustomStopwords` instance: the language key, the in-memory
custom set and the base set loaded once from the NLTK corpus (an external
read-only lookup, passed in as a parameter at construction). -/
structure CustomStopwords where
  language : String
  custom_stopwords : Finset String
  base_stopwords : Finset String
deriving DecidableEq

/-- The persisted JSON object: language name to list of custom words;
`none` models an absent key. -/
def World : Type := String → Option (List String)

/-- The sorted list written for a language on save: Python
`sorted(self.custom_stopwords)` (lexicographic string order). -/
def sortCustom (s : Finset String) : List String :=
  s.sort (· ≤ ·)

/-- `CustomStopwords._save`: read-modify-write of the persisted object,
replacing only the entry of `language` by the sorted custom list. -/
def saveWorld (w : World) (language : String) (custom : Finset String) : World :=
  fun k => if k = language then some (sortCustom custom) else w k

/-- `CustomStopwords.__init__` followed by `_load_custom_stopwords`:
the custom set is `set(data.get(language, []))` and the base set comes from
the external corpus lookup for `language`. -/
def constructStore (corpus : String → Finset String) (w : World)
    (language : String) : CustomStopwords :=
  { language := language
    custom_stopwords := ((w language).getD []).toFinset
    base_stopwords := corpus language }

/-- `CustomStopwords.add`: lowercase every given word, insert all of them
into the custom set, then persist. -/
def CustomStopwords.add (s : CustomStopwords) (w : World) (words : List String) :
    CustomStopwords × World :=
  let custom := s.custom_stopwords ∪ (words.map strLower).toFinset
  ({ s with custom_stopwords := custom }, saveWorld w s.language custom)

/-- `CustomStopwords.remove`: lowercase and discard every given word from
the custom set (no error when absent), then persist. -/
def CustomStopwords.remove (s : CustomStopwords) (w : World) (words : List String) :
    CustomStopwords × World :=
  let custom := words.foldl (fun c word => c.erase (strLower word)) s.custom_stopwords
  ({ s with custom_stopwords := custom }, saveWorld w s.language custom)

/-- `CustomStopwords.get_all`: the union of base and custom stopwords,
recomputed on demand. -/
def CustomStopwords.get_all (s : CustomStopwords) : Finset String :=
  s.base_stopwords ∪ s.custom_stopwords

/-- `CustomStopwords.is_stopword`: membership of the lowercased word in the
union of base and custom stopwords. -/
def CustomStopwords.is_stopword (s : CustomStopwords) (word : String) : Bool :=
  decide (strLower word ∈ s.get_all)

/-- `preprocess`: tokenize the lowercased text and, when requested, keep
only the tokens that are not stopwords. -/
def preprocess (text : String) (plugin : CustomStopwords)
    (remove_stopwords : Bool) : List String :=
  let words := tokenize text
  if remove_stopwords then
    words.filter (fun word => !plugin.is_stopword word)
  else
    words

/-- The filesystem seen by the processors: path to text content, `none`
for a missing file. -/
def FileSystem : Type := String → Option String

/-- Occurrence counts in first-encounter order: the model of
`collections.Counter(tokens).items()` (a Python dict iterates its keys in
first-insertion order, and the count of each key is the number of
occurrences in the token list). -/
def countOcc (l : List String) : List (String × Nat) :=
  (l.foldl (fun acc a => if a ∈ acc then acc else acc ++ [a]) []).map
    (fun w => (w, l.count w))

/-- Comparison used by `Counter.most_common`: descending by count. -/
def freqGE (a b : String × Nat) : Prop := b.2 ≤ a.2

instance : DecidableRel freqGE := fun a b => Nat.decLe b.2 a.2

instance : IsTotal (String × Nat) freqGE :=
  ⟨fun a b => (Nat.le_total b.2 a.2).imp id id⟩

instance : IsTrans (String × Nat) freqGE :=
  ⟨fun _ _ _ h1 h2 => Nat.le_trans h2 h1⟩

/-- `Counter(tokens).most_common(n)`: the occurrence counts sorted by
count, descending, with a stable sort (ties stay in first-encounter
order, as in CPython), truncated to the first `n`. -/
def mostCommon (n : Nat) (l : List String) : List (String × Nat) :=
  (List.insertionSort freqGE (countOcc l)).take n

/-- A `TextProcessor` holds exactly one stopword-store reference. -/
structure TextProcessor where
  stopwords_plugin : CustomStopwords
deriving DecidableEq

/-- The dictionary returned by `TextProcessor.process_file`. -/
structure ProcessFileResult where
  file : String
  original_text : String
  tokens : List String
  token_count : Nat
  unique_tokens : Nat
  remove_stopwords : Bool
deriving DecidableEq

/-- `TextProcessor.process_file`: raises `FileNotFoundError` (modelled as
`Except.error`) when the path is absent, otherwise reads the text,
preprocesses it and returns the result record. -/
def TextProcessor.process_file (tp : TextProcessor) (fs : FileSystem)
    (file_path : String) (remove_stopwords : Bool) :
    Except String ProcessFileResult :=
  match fs file_path with
  | none => .error ("File not found: " ++ file_path)
  | some text =>
    let tokens := preprocess text tp.stopwords_plugin remove_stopwords
    .ok { file := file_path
          original_text := text
          tokens := tokens
          token_count := tokens.length
          unique_tokens := tokens.toFinset.card
          remove_stopwords := remove_stopwords }

/-- `TextProcessor.get_word_frequency`: process the file, count token
occurrences with `Counter`, return the `top_n` most common pairs. -/
def TextProcessor.get_word_frequency (tp : TextProcessor) (fs : FileSystem)
    (file_path : String) (top_n : Nat) (remove_stopwords : Bool) :
    Except String (List (String × Nat)) :=
  (tp.process_file fs file_path remove_stopwords).map
    (fun r => mostCommon top_n r.tokens)

/-- Preset extra stopwords of the `web` document type. -/
def web_terms : List String :=
  ["html", "css", "javascript", "browser", "page", "link", "button", "form"]

/-- Preset extra stopwords of the `business` document type. -/
def business_terms : List String :=
  ["company", "business", "market", "customer", "product", "revenue", "profit"]

/-- Preset extra stopwords of the `academic` document type. -/
def academic_terms : List String :=
  ["abstract", "introduction", "conclusion", "method", "result", "study",
   "research", "paper", "author"]

/-- Preset extra stopwords of the `news` document type. -/
def news_terms : List String :=
  ["said", "says", "reported", "according", "news", "article", "story",
   "source", "today"]

/-- `create_technical_processor`: constructs a fresh store over the shared
persisted file and adds no words, so the world is untouched. -/
def DocumentTypeProcessors.create_technical_processor
    (corpus : String → Finset String) (w : World) : TextProcessor × World :=
  (⟨constructStore corpus w "english"⟩, w)

/-- `create_web_content_processor`: fresh store plus `add(web_terms)`. -/
def DocumentTypeProcessors.create_web_content_processor
    (corpus : String → Finset String) (w : World) : TextProcessor × World :=
  let sw := constructStore corpus w "english"
  let r := sw.add w web_terms
  (⟨r.1⟩, r.2)

/-- `create_business_processor`: fresh store plus `add(business_terms)`. -/
def DocumentTypeProcessors.create_business_processor
    (corpus : String → Finset String) (w : World) : TextProcessor × World :=
  let sw := constructStore corpus w "english"
  let r := sw.add w business_terms
  (⟨r.1⟩, r.2)

/-- `create_academic_processor`: fresh store plus `add(academic_terms)`. -/
def DocumentTypeProcessors.create_academic_processor
    (corpus : String → Finset String) (w : World) : TextProcessor × World :=
  let sw := constructStore corpus w "english"
  let r := sw.add w academic_terms
  (⟨r.1⟩, r.2)

/-- `create_news_processor`: fresh store plus `add(news_terms)`. -/
def DocumentTypeProcessors.create_news_processor
    (corpus : String → Finset String) (w : World) : TextProcessor × World :=
  let sw := constructStore corpus w "english"
  let r := sw.add w news_terms
  (⟨r.1⟩, r.2)

/-- The registered document-type labels, in registration order. -/
def ProcessorRegistry.list_types : List String :=
  ["technical", "web", "business", "academic", "news"]

/-- `ProcessorRegistry.get_processor`: looks the label up in the registry
and, when found, invokes that label's factory on the current world (each
call constructs a fresh processor and performs the factory's store side
effects anew); an unregistered label is a `ValueError` listing the
available labels. -/
def ProcessorRegistry.get_processor (corpus : String → Finset String)
    (doc_type : String) (w : World) : Except String (TextProcessor × World) :=
  if doc_type = "technical" then
    .ok (DocumentTypeProcessors.create_technical_processor corpus w)
  else if doc_type = "web" then
    .ok (DocumentTypeProcessors.create_web_content_processor corpus w)
  else if doc_type = "business" then
    .ok (DocumentTypeProcessors.create_business_processor corpus w)
  else if doc_type = "academic" then
    .ok (DocumentTypeProcessors.create_academic_processor corpus w)
  else if doc_type = "news" then
    .ok (DocumentTypeProcessors.create_news_processor corpus w)
  else
    .error ("Unknown document type " ++ doc_type ++
      ". Available: technical, web, business, academic, news")

/-- Round-half-even on rationals: the tie-breaking rule of Python
`round`. -/
def roundHalfEven (q : ℚ) : ℤ :=
  let f := ⌊q⌋
  let frac := q - f
  if frac < 1 / 2 then f
  else if 1 / 2 < frac then f + 1
  else if f % 2 = 0 then f else f + 1

/-- Python `round(x, 2)`, modelled on rationals. -/
def round2 (q : ℚ) : ℚ :=
  (roundHalfEven (q * 100) : ℚ) / 100

/-- The result dictionary built by `NLPPipeline.process_text`; `file` is
the optional key added later by `process_file` (absent key = `none`). -/
structure ProcResult where
  type : String
  original_length : Nat
  token_count : Nat
  unique_tokens : Nat
  tokens : List String
  reduction_percent : ℚ
  top_words : Option (List (String × Nat))
  file : Option String
deriving DecidableEq

/-- Pipeline state. Python result dicts are mutable and shared between the
result log and callers, so records live in a `heap` (addresses are list
indices) and `results` logs heap addresses in append order. -/
structure NLPPipeline where
  default_type : String
  heap : List ProcResult
  results : List Nat
deriving DecidableEq

/-- `NLPPipeline.process_text`: resolve the document type, tokenize and
filter through the resolved processor's store (the resolution through the
per-type processor cache is abstracted as the `plugin` argument), build
the result record with its reduction percentage, append it to the result
log, and return it (record, its heap address, new state). -/
def NLPPipeline.process_text (p : NLPPipeline) (plugin : CustomStopwords)
    (text : String) (doc_type : Option String) (get_frequency : Bool)
    (top_n : Nat) : ProcResult × Nat × NLPPipeline :=
  let dt := doc_type.getD p.default_type
  let tokens := preprocess text plugin true
  let result : ProcResult :=
    { type := dt
      original_length := text.length
      token_count := tokens.length
      unique_tokens := tokens.toFinset.card
      tokens := tokens
      reduction_percent :=
        if pySplit text = [] then 0
        else round2 ((1 - (tokens.length : ℚ) / ((pySplit text).length : ℚ)) * 100)
      top_words := if get_frequency then some (mostCommon top_n tokens) else none
      file := none }
  (result, p.heap.length,
    { p with
      heap := p.heap ++ [result]
      results := p.results ++ [p.heap.length] })

/-- Outcome of `NLPPipeline.process_file`: either the heap address of the
successful result record, or the error dictionary (file path and error
message) returned without raising. -/
inductive FileOutcome where
  | ok (addr : Nat)
  | err (file : String) (message : String)
deriving DecidableEq

/-- `NLPPipeline.process_file`: on a missing or unreadable file, return
the error record and leave the pipeline untouched; on success, delegate
to `process_text` and then set the `file` key on the very record that
`process_text` appended to the log (an in-place dict mutation, modelled
as overwriting the heap cell at the returned address). -/
def NLPPipeline.process_file (p : NLPPipeline) (plugin : CustomStopwords)
    (fs : FileSystem) (file_path : String) (doc_type : Option String)
    (get_frequency : Bool) (top_n : Nat) : FileOutcome × NLPPipeline :=
  match fs file_path with
  | none => (.err file_path "File not found", p)
  | some text =>
    let r := p.process_text plugin text doc_type get_frequency top_n
    let annotated := { r.1 with file := some file_path }
    (.ok r.2.1, { r.2.2 with heap := r.2.2.heap.set r.2.1 annotated })

/-- An empty persisted file: no language has an entry yet. -/
def emptyWorld : World := fun _ => none

/-- A trivial base corpus used for concrete instantiations: every language
has an empty base list. -/
def noCorpus : String → Finset String := fun _ => ∅

/-- A freshly constructed store over the empty file and trivial corpus. -/
def sampleStore : CustomStopwords := constructStore noCorpus emptyWorld "english"

/-- Concatenating the runs recovers exactly the characters satisfying `p`,
in order: no character of a run is invented or dropped by the scanner. -/
theorem splitRunsAux_join (p : Char → Bool) :
    ∀ (l acc : List Char), (splitRunsAux p l acc).flatten = acc.reverse ++ l.filter p
  | [], acc => by cases acc <;> simp [splitRunsAux]
  | c :: cs, acc => by
    by_cases h : p c
    · simp [splitRunsAux, h, splitRunsAux_join p cs (c :: acc)]
    · cases acc with
      | nil => simp [splitRunsAux, h, splitRunsAux_join p cs []]
      | cons a as => simp [splitRunsAux, h, splitRunsAux_join p cs []]

/-- Every run emitted by the scanner is nonempty and consists only of
characters satisfying `p`. -/
theorem splitRunsAux_mem (p : Char → Bool) :
    ∀ (l acc : List Char), (∀ a ∈ acc, p a = true) →
      ∀ t ∈ splitRunsAux p l acc, t ≠ [] ∧ ∀ c ∈ t, p c = true
  | [], acc => by
    intro hacc t ht
    cases acc with
    | nil => simp [splitRunsAux] at ht
    | cons a as =>
      simp [splitRunsAux] at ht
      subst ht
      refine ⟨by simp, ?_⟩
      intro c hc
      have hc2 : c ∈ a :: as := by
        rcases List.mem_append.mp hc with h1 | h1
        · exact List.mem_cons_of_mem a (List.mem_reverse.mp h1)
        · simp at h1
          simp [h1]
      exact hacc c hc2
  | c :: cs, acc => by
    intro hacc t ht
    by_cases h : p c
    · refine splitRunsAux_mem p cs (c :: acc) ?_ t (by simpa [splitRunsAux, h] using ht)
      intro a ha
      rcases List.mem_cons.mp ha with rfl | ha
      · exact h
      · exact hacc a ha
    · cases acc with
      | nil =>
        exact splitRunsAux_mem p cs [] (by simp) t
          (by simpa [splitRunsAux, h] using ht)
      | cons a as =>
        rw [splitRunsAux, if_neg h, if_neg (by simp)] at ht
        rcases List.mem_cons.mp ht with rfl | ht
        · refine ⟨by simp, ?_⟩
          intro x hx
          exact hacc x (List.mem_reverse.mp hx)
        · exact splitRunsAux_mem p cs [] (by simp) t ht

/-- The scanner agrees with the declarative maximal-run recursion: with a
pending run `acc`, it completes that run greedily (`takeWhile`) and
resumes after it (`dropWhile`). -/
theorem splitRunsAux_eq_maximalRuns (p : Char → Bool) :
    ∀ (l acc : List Char),
      splitRunsAux p l acc =
        if acc.isEmpty then maximalRuns p l
        else (acc.reverse ++ l.takeWhile p) :: maximalRuns p (l.dropWhile p)
  | [], acc => by cases acc <;> simp [splitRunsAux, maximalRuns]
  | c :: cs, acc => by
    by_cases h : p c
    · rw [splitRunsAux, if_pos h, splitRunsAux_eq_maximalRuns p cs (c :: acc)]
      cases acc with
      | nil => simp [maximalRuns, h, List.takeWhile_cons, List.dropWhile_cons]
      | cons a as =>
        simp [maximalRuns, h, List.takeWhile_cons, List.dropWhile_cons]
    · cases acc with
      | nil =>
        rw [splitRunsAux, if_neg h, if_pos (by simp),
          splitRunsAux_eq_maximalRuns p cs []]
        simp [maximalRuns, h]
      | cons a as =>
        rw [splitRunsAux, if_neg h, if_neg (by simp),
          splitRunsAux_eq_maximalRuns p cs []]
        simp [maximalRuns, h, List.takeWhile_cons, List.dropWhile_cons]

/-- The scanner computes exactly the maximal runs. -/
theorem splitRuns_eq_maximalRuns (p : Char → Bool) (l : List Char) :
    splitRuns p l = maximalRuns p l := by
  simp [splitRuns, splitRunsAux_eq_maximalRuns]

/-- Claim C4: with `remove_stopwords=False`, `preprocess` returns exactly
the full lowercase tokenization (the maximal runs of word characters of
the lowercased text, left to right, no empty token); with
`remove_stopwords=True` it returns the subsequence of those tokens that
are not stopwords, preserving relative order and duplicates. The final
conjunct certifies that concatenating the tokens yields exactly the word
characters of the lowercased text, in order. -/
theorem claim4_preprocess (text : String) (s : CustomStopwords) :
    preprocess text s false = tokenize text ∧
    preprocess text s true =
      (tokenize text).filter (fun w => !s.is_stopword w) ∧
    (preprocess text s true).Sublist (preprocess text s false) ∧
    tokenize text =
      (maximalRuns isWordChar (text.data.map pyLower)).map String.mk ∧
    (∀ t ∈ preprocess text s false, t ≠ "" ∧ t.data.all isWordChar = true) ∧
    ((preprocess text s false).map String.data).flatten =
      (text.data.map pyLower).filter isWordChar := by
  refine ⟨rfl, rfl, ?_, ?_, ?_, ?_⟩
  · exact List.filter_sublist (l := tokenize text)
  · simp [tokenize, splitRuns_eq_maximalRuns]
  · intro t ht
    have ht2 : t ∈ tokenize text := ht
    simp only [tokenize, List.mem_map] at ht2
    obtain ⟨cs, hcs, rfl⟩ := ht2
    obtain ⟨hne, hall⟩ := splitRunsAux_mem isWordChar _ [] (by simp) cs hcs
    constructor
    · intro hcontra
      exact hne (congrArg String.data hcontra)
    · exact List.all_eq_true.mpr hall
  · have h6 : preprocess text s false = tokenize text := rfl
    rw [h6]
    simp only [tokenize, List.map_map]
    have hcomp : String.data ∘ String.mk = id := rfl
    rw [hcomp, List.map_id]
    simpa using splitRunsAux_join isWordChar (text.data.map pyLower) []

/-- Witness for C4 at a concrete text, store and token. -/
theorem claim4_witness :
    "hello" ∈ preprocess "Hello, World!" sampleStore false ∧
    ("hello" ≠ "" ∧ "hello".data.all isWordChar = true) :=
  ⟨by decide,
   (claim4_preprocess "Hello, World!" sampleStore).2.2.2.2.1 "hello" (by decide)⟩

/-- Claim C1: after `store.add(w)`, `store.is_stopword(v)` is true for
every `v` with the same lowercasing as `w`: `add` lowercases before
inserting into the custom set and `is_stopword` lowercases before the
membership test against the union of base and custom stopwords. -/
theorem claim1_add_then_is_stopword (s : CustomStopwords) (w0 : World)
    (w v : String) (h : strLower v = strLower w) :
    ((s.add w0 [w]).1).is_stopword v = true := by
  simp [CustomStopwords.add, CustomStopwords.is_stopword,
    CustomStopwords.get_all, h]

/-- Witness for C1 at a concrete store and mixed-case inputs. -/
theorem claim1_witness :
    strLower "HeLLo" = strLower "heLLO" ∧
    ((sampleStore.add emptyWorld ["heLLO"]).1).is_stopword "HeLLo" = true :=
  ⟨by decide,
   claim1_add_then_is_stopword sampleStore emptyWorld "heLLO" "HeLLo" (by decide)⟩

/-- Claim C2: after `store.remove(w)`, `store.is_stopword(w)` holds
exactly when the lowercased word is a base stopword, and removing a word
absent from the custom set leaves the custom set unchanged (discard
semantics, never an error). -/
theorem claim2_remove_then_is_stopword (s : CustomStopwords) (w0 : World)
    (w : String) :
    (((s.remove w0 [w]).1).is_stopword w = true ↔
      strLower w ∈ s.base_stopwords) ∧
    (strLower w ∉ s.custom_stopwords →
      ((s.remove w0 [w]).1).custom_stopwords = s.custom_stopwords) := by
  constructor
  · simp [CustomStopwords.remove, CustomStopwords.is_stopword,
      CustomStopwords.get_all]
  · intro h
    simp [CustomStopwords.remove, Finset.erase_eq_of_not_mem h]

/-- Witness for C2 at a concrete store and word. -/
theorem claim2_witness :
    ((((sampleStore.remove emptyWorld ["foo"]).1).is_stopword "foo" = true ↔
      strLower "foo" ∈ sampleStore.base_stopwords) ∧
    (strLower "foo" ∉ sampleStore.custom_stopwords →
      ((sampleStore.remove emptyWorld ["foo"]).1).custom_stopwords =
        sampleStore.custom_stopwords)) ∧
    ((sampleStore.remove emptyWorld ["foo"]).1).custom_stopwords =
      sampleStore.custom_stopwords :=
  ⟨claim2_remove_then_is_stopword sampleStore emptyWorld "foo",
   (claim2_remove_then_is_stopword sampleStore emptyWorld "foo").2 (by decide)⟩

/-- Claim C3: persistence round-trip. After the save performed by `add` or
`remove`, constructing a new store from the resulting file at the same
language reproduces exactly the in-memory custom set: saving as a sorted
list and reloading it as a set loses no element and adds none. -/
theorem claim3_roundtrip (corpus : String → Finset String)
    (s : CustomStopwords) (w0 : World) (ws : List String) :
    (constructStore corpus (s.add w0 ws).2 s.language).custom_stopwords =
      (s.add w0 ws).1.custom_stopwords ∧
    (constructStore corpus (s.remove w0 ws).2 s.language).custom_stopwords =
      (s.remove w0 ws).1.custom_stopwords := by
  constructor <;>
    simp [constructStore, saveWorld, sortCustom, CustomStopwords.add,
      CustomStopwords.remove, Finset.sort_toFinset]

/-- Claim C8: frame property of the save performed by `add` and `remove`:
every language key different from the store's own keeps the exact value it
had before the write. -/
theorem claim8_save_frame (s : CustomStopwords) (w0 : World)
    (ws : List String) (K : String) (h : K ≠ s.language) :
    (s.add w0 ws).2 K = w0 K ∧ (s.remove w0 ws).2 K = w0 K := by
  constructor <;> simp [CustomStopwords.add, CustomStopwords.remove, saveWorld, h]

/-- Witness for C8 at a concrete store, world and foreign key. -/
theorem claim8_witness :
    "german" ≠ sampleStore.language ∧
    ((sampleStore.add emptyWorld ["foo"]).2 "german" = emptyWorld "german" ∧
     (sampleStore.remove emptyWorld ["foo"]).2 "german" = emptyWorld "german") :=
  ⟨by decide,
   claim8_save_frame sampleStore emptyWorld ["foo"] "german" (by decide)⟩

/-- A text processor over the sample store. -/
def sampleProcessor : TextProcessor := ⟨sampleStore⟩

/-- A one-file filesystem holding the frequency scenario text. -/
def sampleFs : FileSystem :=
  fun p => if p = "doc.txt" then some "a a b b b c" else none

/-- Claim C5: `get_word_frequency` returns the `top_n` most frequent
(word, count) pairs of the processed file: the result is the truncated
stable descending sort of the occurrence counts, it is sorted by
descending count, every returned count is the exact number of occurrences
of its word, and on the file `"a a b b b c"` with stopword removal
disabled and `top_n = 2` it returns `[("b", 3), ("a", 2)]`. -/
theorem claim5_word_frequency :
    (∀ (tp : TextProcessor) (fs : FileSystem) (path : String) (top_n : Nat)
        (rm : Bool) (content : String), fs path = some content →
      tp.get_word_frequency fs path top_n rm =
        .ok (mostCommon top_n (preprocess content tp.stopwords_plugin rm)) ∧
      List.Sorted freqGE
        (mostCommon top_n (preprocess content tp.stopwords_plugin rm)) ∧
      ∀ pr ∈ mostCommon top_n (preprocess content tp.stopwords_plugin rm),
        pr.2 = (preprocess content tp.stopwords_plugin rm).count pr.1) ∧
    sampleProcessor.get_word_frequency sampleFs "doc.txt" 2 false =
      .ok [("b", 3), ("a", 2)] := by
  constructor
  · intro tp fs path top_n rm content h
    refine ⟨?_, ?_, ?_⟩
    · simp [TextProcessor.get_word_frequency, TextProcessor.process_file, h,
        Except.map]
    · exact (List.sorted_insertionSort freqGE _).sublist
        (List.take_sublist _ _)
    · intro pr hpr
      have h1 : pr ∈ List.insertionSort freqGE
          (countOcc (preprocess content tp.stopwords_plugin rm)) :=
        List.mem_of_mem_take hpr
      have h2 : pr ∈ countOcc (preprocess content tp.stopwords_plugin rm) :=
        (List.mem_insertionSort freqGE).mp h1
      simp only [countOcc, List.mem_map] at h2
      obtain ⟨w, _, rfl⟩ := h2
      rfl
  · rfl

/-- Witness for C5 at the concrete frequency scenario. -/
theorem claim5_witness :
    sampleFs "doc.txt" = some "a a b b b c" ∧
    sampleProcessor.get_word_frequency sampleFs "doc.txt" 2 false =
      .ok (mostCommon 2
        (preprocess "a a b b b c" sampleProcessor.stopwords_plugin false)) :=
  ⟨by decide,
   (claim5_word_frequency.1 sampleProcessor sampleFs "doc.txt" 2 false
      "a a b b b c" (by decide)).1⟩

/-- No run of characters satisfying `p` exists when every character of the
input fails `p`. -/
theorem splitRunsAux_eq_nil (p : Char → Bool) :
    ∀ l : List Char, (∀ c ∈ l, p c = false) → splitRunsAux p l [] = []
  | [], _ => rfl
  | c :: cs, h => by
    rw [splitRunsAux, if_neg (by simp [h c (List.mem_cons_self c cs)]),
      if_pos (by simp)]
    exact splitRunsAux_eq_nil p cs (fun x hx => h x (List.mem_cons_of_mem _ hx))

/-- `text.split()` of an all-whitespace text is empty. -/
theorem pySplit_eq_nil_of_space (text : String)
    (h : ∀ c ∈ text.data, pyIsSpace c = true) : pySplit text = [] := by
  unfold pySplit splitRuns
  rw [splitRunsAux_eq_nil _ _ (fun c hc => by simp [h c hc])]
  rfl

/-- An empty pipeline with the default document type. -/
def samplePipeline : NLPPipeline := ⟨"technical", [], []⟩

/-- Claim C6: the record produced by `process_text` has
`reduction_percent` equal to `100 * (1 - filteredTokenCount /
whitespaceSplitWordCount)` rounded to two decimals whenever the text has
at least one whitespace-delimited word, and equal to `0` for an empty or
whitespace-only text; in particular `process_text("")` yields
`token_count = 0` and `reduction_percent = 0`. -/
theorem claim6_reduction_percent (p : NLPPipeline) (plugin : CustomStopwords)
    (dt : Option String) (gf : Bool) (tn : Nat) :
    (∀ text,
      ((p.process_text plugin text dt gf tn).1).token_count =
        (preprocess text plugin true).length ∧
      ((p.process_text plugin text dt gf tn).1).reduction_percent =
        (if pySplit text = [] then 0
         else round2 (100 * (1 - ((preprocess text plugin true).length : ℚ) /
           ((pySplit text).length : ℚ))))) ∧
    (∀ text, (∀ c ∈ text.data, pyIsSpace c = true) →
      ((p.process_text plugin text dt gf tn).1).reduction_percent = 0) ∧
    (((p.process_text plugin "" dt gf tn).1).token_count = 0 ∧
     ((p.process_text plugin "" dt gf tn).1).reduction_percent = 0) := by
  refine ⟨fun text => ⟨rfl, ?_⟩, fun text hws => ?_, rfl, ?_⟩
  · simp only [NLPPipeline.process_text, mul_comm]
  · simp [NLPPipeline.process_text, pySplit_eq_nil_of_space text hws]
  · rfl

/-- Witness for C6 at a whitespace-only text. -/
theorem claim6_witness :
    (∀ c ∈ "  ".data, pyIsSpace c = true) ∧
    ((samplePipeline.process_text sampleStore "  " none false 10).1).reduction_percent
      = 0 :=
  ⟨by decide,
   (claim6_reduction_percent samplePipeline sampleStore none false 10).2.1
     "  " (by decide)⟩

/-- A filesystem with no files at all. -/
def emptyFs : FileSystem := fun _ => none

/-- Claim C7: `process_file` on a missing or unreadable path does not
raise: it returns the error record holding the file path and the error
message, and leaves the pipeline state (in particular the result log)
exactly as it was. -/
theorem claim7_process_file_missing (p : NLPPipeline) (plugin : CustomStopwords)
    (fs : FileSystem) (path : String) (dt : Option String) (gf : Bool)
    (tn : Nat) (h : fs path = none) :
    p.process_file plugin fs path dt gf tn =
      (.err path "File not found", p) ∧
    ((p.process_file plugin fs path dt gf tn).2).results = p.results := by
  constructor <;> simp [NLPPipeline.process_file, h]

/-- Witness for C7 at a concrete pipeline and missing path. -/
theorem claim7_witness :
    emptyFs "absent.txt" = none ∧
    (samplePipeline.process_file sampleStore emptyFs "absent.txt" none false 10 =
      (.err "absent.txt" "File not found", samplePipeline) ∧
    ((samplePipeline.process_file sampleStore emptyFs "absent.txt" none
        false 10).2).results = samplePipeline.results) :=
  ⟨rfl,
   claim7_process_file_missing samplePipeline sampleStore emptyFs "absent.txt"
     none false 10 rfl⟩

/-- Overwriting the freshly appended last cell of a list. -/
theorem set_concat_length (x y : α) :
    ∀ l : List α, (l ++ [x]).set l.length y = l ++ [y]
  | [] => rfl
  | a :: as => congrArg (List.cons a) (set_concat_length x y as)

/-- Claim C10: after a successful `process_file`, the record appended to
the result log by `process_text` is the very record that `process_file`
annotates with the file path, so the last entry of the log carries the
`file` key (visible in the log, not only in the returned value), and
exactly one entry was appended. -/
theorem claim10_file_annotation (p : NLPPipeline) (plugin : CustomStopwords)
    (fs : FileSystem) (path : String) (dt : Option String) (gf : Bool)
    (tn : Nat) (content : String) (h : fs path = some content) :
    ∃ addr rec,
      (p.process_file plugin fs path dt gf tn).1 = .ok addr ∧
      ((p.process_file plugin fs path dt gf tn).2).results =
        p.results ++ [addr] ∧
      ((p.process_file plugin fs path dt gf tn).2).results.getLast? =
        some addr ∧
      (((p.process_file plugin fs path dt gf tn).2).heap)[addr]? = some rec ∧
      rec.file = some path := by
  refine ⟨p.heap.length,
    { (p.process_text plugin content dt gf tn).1 with file := some path },
    ?_, ?_, ?_, ?_, rfl⟩
  · simp [NLPPipeline.process_file, h, NLPPipeline.process_text]
  · simp [NLPPipeline.process_file, h, NLPPipeline.process_text]
  · simp [NLPPipeline.process_file, h, NLPPipeline.process_text,
      List.getLast?_concat]
  · simp only [NLPPipeline.process_file, h, NLPPipeline.process_text]
    rw [set_concat_length]
    exact List.getElem?_concat_length _ _

/-- Witness for C10 at a concrete pipeline and existing file. -/
theorem claim10_witness :
    sampleFs "doc.txt" = some "a a b b b c" ∧
    (∃ addr rec,
      (samplePipeline.process_file sampleStore sampleFs "doc.txt" none
          false 10).1 = .ok addr ∧
      ((samplePipeline.process_file sampleStore sampleFs "doc.txt" none
          false 10).2).results = samplePipeline.results ++ [addr] ∧
      ((samplePipeline.process_file sampleStore sampleFs "doc.txt" none
          false 10).2).results.getLast? = some addr ∧
      (((samplePipeline.process_file sampleStore sampleFs "doc.txt" none
          false 10).2).heap)[addr]? = some rec ∧
      rec.file = some "doc.txt") :=
  ⟨by decide,
   claim10_file_annotation samplePipeline sampleStore sampleFs "doc.txt"
     none false 10 "a a b b b c" (by decide)⟩

/-- The union of the stopwords loaded for english from the world with the
lowercased preset terms of one label: the custom set held by the processor
a preset factory returns, and the set its save writes back. -/
def presetUnion (w : World) (terms : List String) : Finset String :=
  ((w "english").getD []).toFinset ∪ (terms.map strLower).toFinset

/-- Claim C9: every call of `ProcessorRegistry.get_processor` with a
registered label applies that label's factory to the current world, so
each call constructs the processor afresh from the persisted state; the
`technical` factory adds no words and leaves the world untouched, while
the `web`, `business`, `academic` and `news` factories add their fixed
preset terms to the shared store and rewrite the persisted english entry
with the sorted union as a side effect. -/
theorem claim9_registry (corpus : String → Finset String) (w : World) :
    (ProcessorRegistry.get_processor corpus "technical" w =
      .ok (⟨constructStore corpus w "english"⟩, w)) ∧
    (ProcessorRegistry.get_processor corpus "web" w =
      .ok (⟨⟨"english", presetUnion w web_terms, corpus "english"⟩⟩,
        saveWorld w "english" (presetUnion w web_terms))) ∧
    (ProcessorRegistry.get_processor corpus "business" w =
      .ok (⟨⟨"english", presetUnion w business_terms, corpus "english"⟩⟩,
        saveWorld w "english" (presetUnion w business_terms))) ∧
    (ProcessorRegistry.get_processor corpus "academic" w =
      .ok (⟨⟨"english", presetUnion w academic_terms, corpus "english"⟩⟩,
        saveWorld w "english" (presetUnion w academic_terms))) ∧
    (ProcessorRegistry.get_processor corpus "news" w =
      .ok (⟨⟨"english", presetUnion w news_terms, corpus "english"⟩⟩,
        saveWorld w "english" (presetUnion w news_terms))) ∧
    (∀ terms, (saveWorld w "english" (presetUnion w terms)) "english" =
      some (sortCustom (presetUnion w terms))) := by
  refine ⟨rfl, rfl, rfl, rfl, rfl, fun terms => ?_⟩
  simp [saveWorld]
